import Mathlib

/-!
Verification of the create-umi scaffolding pipeline
(`packages/create-umi/src/index.ts`).

The development shallowly embeds the decision-and-provisioning pipeline:
environment probes (monorepo-root detection, pnpm major-version probe,
registry classification), parameter resolution (`withHusky`,
`pnpmExtraNpmrc`, template data), and the post-generation reconciliation
steps (husky removal, `.npmrc` relocation, git init, dependency install).

Filesystem paths are modelled as lists of components (`FsPath`), a
filesystem as the list of files that exist (`FsTree`).  JavaScript string
operations used by the probes (`trim`, `split('.')[0]`, `parseInt`,
`String.prototype.includes`) are modelled on `List Char`.  Fallible
steps return `Except`; a primitive-failure record (`FsFailures`) injects
the possible failures of the filesystem / process primitives.
-/

/-! ## JavaScript string primitives, modelled on character lists -/

/-- Whitespace characters removed by JavaScript `trim` (the common ones). -/
def isJsWhitespace (c : Char) : Bool :=
  c = ' ' || c = '\t' || c = '\n' || c = '\r' || c = '\u000B' || c = '\u000C'

/-- JavaScript `String.prototype.trim` on a character list. -/
def trimChars (s : List Char) : List Char :=
  ((s.dropWhile isJsWhitespace).reverse.dropWhile isJsWhitespace).reverse

/-- Value of a string of decimal digits, most significant first. -/
def digitsVal (ds : List Char) : Nat :=
  ds.foldl (fun a c => 10 * a + (c.toNat - 48)) 0

/-- Leading-digit parsing used by `parseInt(s, 10)` after the sign. -/
def parseDigits (s : List Char) : Option Nat :=
  let ds := s.takeWhile Char.isDigit
  if ds.isEmpty then none else some (digitsVal ds)

/-- JavaScript `parseInt(s, 10)`: skip leading whitespace, optional sign,
then the longest prefix of decimal digits; `none` models `NaN`. -/
def jsParseInt (s : List Char) : Option Int :=
  let t := s.dropWhile isJsWhitespace
  if t.head? = some '-' then (parseDigits t.tail).map (fun n => -(n : Int))
  else if t.head? = some '+' then (parseDigits t.tail).map (fun n => (n : Int))
  else if t.isEmpty then none
  else (parseDigits t).map (fun n => (n : Int))

/-- JavaScript `String.prototype.includes`: `needle` occurs contiguously
inside `hay`. -/
def hasSubstr (hay needle : List Char) : Bool :=
  match hay with
  | [] => needle.isEmpty
  | c :: t => List.isPrefixOf needle (c :: t) || hasSubstr t needle

/-! ## Npm client enumeration (`ENpmClient` in the source) -/

/-- The `ENpmClient` enum of the source. -/
inductive ENpmClient
  | npm
  | cnpm
  | tnpm
  | yarn
  | pnpm
deriving DecidableEq, Repr

/-! ## pnpm major-version probe: output parsing (`getPnpmMajorVersion`) -/

/-- Parsing done by `getPnpmMajorVersion` on the captured stdout of
`pnpm --version`: `parseInt(stdout.trim().split('.')[0], 10)`.
`split('.')[0]` is the longest dot-free prefix.  `none` models `NaN`. -/
def parsePnpmMajor (stdout : List Char) : Option Int :=
  jsParseInt ((trimChars stdout).takeWhile (fun c => c != '.'))

/-! ## Parameter resolution: husky flag and pnpm extra npmrc line -/

/-- The `withHusky` resolution: `args.git !== false && !inMonorepo`. -/
def withHuskyOf (gitArg : Option Bool) (inMonorepo : Bool) : Bool :=
  (gitArg != some false) && !inMonorepo

/-- The npmrc line injected for pnpm 7 in the source. -/
def strictPeerLine : String := "strict-peer-dependencies=false"

/-- The `extraNpmrc` value of `DEFAULT_DATA` in the source. -/
def defaultDataExtraNpmrc : String := ""

/-- The `pnpmExtraNpmrc` local of the orchestrator: stays empty unless the
selected client is pnpm and the probed major version is 7. -/
def pnpmExtraNpmrcVal (npmClient : ENpmClient) (pnpmMajorVersion : Option Int) :
    String :=
  if npmClient = ENpmClient.pnpm then
    if pnpmMajorVersion = some 7 then strictPeerLine else ""
  else ""

/-- The `extraNpmrc` field of the data handed to `BaseGenerator` inside
`injectInternalTemplateFiles`: the caller-supplied default bundle when
`--default` is set, otherwise `isPnpm ? pnpmExtraNpmrc : ''`. -/
def templateExtraNpmrc (useDefaultData : Bool) (defaultExtraNpmrc : String)
    (npmClient : ENpmClient) (pnpmMajorVersion : Option Int) : String :=
  if useDefaultData then defaultExtraNpmrc
  else if npmClient = ENpmClient.pnpm then
    pnpmExtraNpmrcVal npmClient pnpmMajorVersion
  else ""

/-! ## Claim C3 -/

/-- Claim C3 (confirmed): the resolved `withHusky` boolean is true exactly
when git initialization is enabled (the `--git false` flag is not set) and
the workspace probe reported the target as not inside a workspace. -/
theorem claimC3_withHusky :
    ∀ (gitArg : Option Bool) (inMonorepo : Bool),
      withHuskyOf gitArg inMonorepo = true ↔
        (gitArg ≠ some false ∧ inMonorepo = false) := by
  decide

/-! ## Claim C2 -/

/-- Claim C2 (counterexample): in a `--default` run with the shipped
`DEFAULT_DATA` bundle, the selected client pnpm and probed major version 7,
the `extraNpmrc` field handed to the generator is the default bundle's
empty string, not the suppression line, so the claimed equivalence fails. -/
theorem claimC2_counterexample :
    ¬ (templateExtraNpmrc true defaultDataExtraNpmrc ENpmClient.pnpm (some 7)
          = strictPeerLine
        ↔ (ENpmClient.pnpm = ENpmClient.pnpm ∧ (some 7 : Option Int) = some 7)) := by
  decide

/-- Claim C2 (amended): in runs that do not use the default data bundle,
the `extraNpmrc` field handed to the render step is the
strict-peer-dependency suppression line iff the selected package manager
is pnpm and the probed major version equals 7, and is the empty string
otherwise. -/
theorem claimC2_extraNpmrc :
    ∀ (defaultExtra : String) (npmClient : ENpmClient) (major : Option Int),
      (templateExtraNpmrc false defaultExtra npmClient major = strictPeerLine
          ↔ (npmClient = ENpmClient.pnpm ∧ major = some 7))
      ∧ templateExtraNpmrc false defaultExtra npmClient major
          = (if npmClient = ENpmClient.pnpm ∧ major = some 7
             then strictPeerLine else "") := by
  intro defaultExtra npmClient major
  have hne : strictPeerLine ≠ "" := by decide
  have hne2 : ¬ ("" = strictPeerLine) := by decide
  by_cases hc : npmClient = ENpmClient.pnpm <;>
    by_cases hm : major = some 7 <;>
      simp [templateExtraNpmrc, pnpmExtraNpmrcVal, hc, hm, hne, hne2]

/-! ## Filesystem model for path probes -/

/-- A path is a list of components from the filesystem root; `[]` is the
root directory itself (POSIX `dirname` of the root is the root, which the
model realises as `List.dropLast [] = []`). -/
abbrev FsPath := List String

/-- A filesystem is the list of files that exist. -/
abbrev FsTree := List FsPath

/-- The upward walk of `pkgUp.pkgUp({ cwd })`: the argument is the start
directory reversed (leaf component first), so stepping to the parent is
structural.  Returns the nearest directory, from the start upward, that
contains a `package.json`. -/
def pkgUpFromRev (fs : FsTree) : List String → Option FsPath
  | [] => if (["package.json"] : FsPath) ∈ fs then some [] else none
  | c :: rest =>
    if ((c :: rest).reverse ++ ["package.json"]) ∈ fs then
      some (c :: rest).reverse
    else pkgUpFromRev fs rest

/-- Directory of the nearest `package.json` at or above `dir`
(the directory form of `pkgUp`, returning `dirname(rootPkg)`). -/
def pkgUpDir (fs : FsTree) (dir : FsPath) : Option FsPath :=
  pkgUpFromRev fs dir.reverse

/-- The `detectMonorepoRoot` function of the source: walk up from the
parent of `target`; a found manifest directory is a monorepo root only if
it also holds `lerna.json` or `pnpm-workspace.yaml`. -/
def detectMonorepoRoot (fs : FsTree) (target : FsPath) : Option FsPath :=
  match pkgUpDir fs target.dropLast with
  | none => none
  | some rootDir =>
    if (rootDir ++ ["lerna.json"]) ∈ fs ∨ (rootDir ++ ["pnpm-workspace.yaml"]) ∈ fs
    then some rootDir
    else none

/-- The `projectRoot` computation of the orchestrator:
`inMonorepo ? monorepoRoot : target`. -/
def projectRootOf (fs : FsTree) (target : FsPath) : FsPath :=
  match detectMonorepoRoot fs target with
  | some r => r
  | none => target

/-! ## Prefix helper lemmas -/

/-- A prefix of `l ++ [a]` is either the whole list or a prefix of `l`. -/
lemma prefix_snoc_cases {α : Type _} {e l : List α} {a : α}
    (h : e <+: l ++ [a]) : e = l ++ [a] ∨ e <+: l := by
  rcases Nat.lt_or_ge e.length (l ++ [a]).length with hlt | hge
  · right
    have he : e = (l ++ [a]).take e.length := List.prefix_iff_eq_take.mp h
    have hle : e.length ≤ l.length := by
      simp only [List.length_append, List.length_singleton] at hlt
      omega
    rw [he, List.take_append_of_le_length hle]
    exact List.take_prefix _ _
  · left
    exact h.eq_of_length (Nat.le_antisymm h.length_le hge)

/-- Soundness of the upward walk: a found directory is a prefix of the
start directory, holds a manifest, and is the nearest (longest) such
prefix. -/
lemma pkgUpFromRev_some (fs : FsTree) (rd : List String) :
    ∀ d : FsPath, pkgUpFromRev fs rd = some d →
      d <+: rd.reverse ∧ (d ++ ["package.json"]) ∈ fs ∧
        ∀ e, e <+: rd.reverse → (e ++ ["package.json"]) ∈ fs →
          e.length ≤ d.length := by
  induction rd with
  | nil =>
    intro d h
    simp only [pkgUpFromRev] at h
    split at h
    · next hmem =>
      cases h
      refine ⟨List.nil_prefix, by simpa using hmem, ?_⟩
      intro e he _
      simp only [List.reverse_nil] at he
      simp [List.prefix_nil.mp he]
    · exact absurd h (by simp)
  | cons c rest ih =>
    intro d h
    simp only [pkgUpFromRev] at h
    split at h
    · next hmem =>
      cases h
      refine ⟨List.prefix_refl _, hmem, ?_⟩
      intro e he _
      exact he.length_le
    · next hnmem =>
      obtain ⟨h1, h2, h3⟩ := ih d h
      rw [List.reverse_cons]
      refine ⟨h1.trans (List.prefix_append _ _), h2, ?_⟩
      intro e he hm
      rcases prefix_snoc_cases he with heq | hpre
      · subst heq
        rw [← List.reverse_cons] at hm
        exact absurd hm hnmem
      · exact h3 e hpre hm

/-- Completeness of the upward walk: when it reports no manifest, no
prefix of the start directory holds one. -/
lemma pkgUpFromRev_none (fs : FsTree) (rd : List String) :
    pkgUpFromRev fs rd = none →
      ∀ e, e <+: rd.reverse → (e ++ ["package.json"]) ∉ fs := by
  induction rd with
  | nil =>
    intro h e he
    simp only [pkgUpFromRev] at h
    split at h
    · exact absurd h (by simp)
    · next hnmem =>
      simp only [List.reverse_nil] at he
      simpa [List.prefix_nil.mp he] using hnmem
  | cons c rest ih =>
    intro h e he
    simp only [pkgUpFromRev] at h
    split at h
    · exact absurd h (by simp)
    · next hnmem =>
      rw [List.reverse_cons] at he
      rcases prefix_snoc_cases he with heq | hpre
      · subst heq
        rw [← List.reverse_cons]
        exact hnmem
      · exact ih h e hpre

/-- Characterisation of `detectMonorepoRoot`: it returns `d` iff the
upward walk from the parent of `target` finds the manifest directory `d`
and `d` additionally holds one of the two workspace markers. -/
lemma detectMonorepoRoot_iff (fs : FsTree) (target d : FsPath) :
    detectMonorepoRoot fs target = some d ↔
      (pkgUpDir fs target.dropLast = some d ∧
        ((d ++ ["lerna.json"]) ∈ fs ∨ (d ++ ["pnpm-workspace.yaml"]) ∈ fs)) := by
  cases hp : pkgUpDir fs target.dropLast with
  | none => simp [detectMonorepoRoot, hp]
  | some r =>
    simp only [detectMonorepoRoot, hp]
    by_cases hmark : (r ++ ["lerna.json"]) ∈ fs ∨ (r ++ ["pnpm-workspace.yaml"]) ∈ fs
    · simp only [if_pos hmark]
      constructor
      · intro h
        cases h
        exact ⟨rfl, hmark⟩
      · rintro ⟨hd, _⟩
        cases hd
        rfl
    · simp only [if_neg hmark]
      constructor
      · intro h
        exact absurd h (by simp)
      · rintro ⟨hd, hm⟩
        cases hd
        exact absurd hm hmark

/-! ## Claim C6 -/

/-- Claim C6 (confirmed): the workspace-root probe returns `d` exactly
when the nearest ancestor package manifest (searching upward from the
parent of the target) lives at `d` and `d` also holds `lerna.json` or
`pnpm-workspace.yaml`; the upward walk is sound, nearest, and complete;
and the two concrete scenarios of the spec evaluate as claimed. -/
theorem claimC6_detectWorkspaceRoot :
    (∀ (fs : FsTree) (target d : FsPath),
        detectMonorepoRoot fs target = some d ↔
          (pkgUpDir fs target.dropLast = some d ∧
            ((d ++ ["lerna.json"]) ∈ fs ∨ (d ++ ["pnpm-workspace.yaml"]) ∈ fs)))
    ∧ (∀ (fs : FsTree) (dir d : FsPath), pkgUpDir fs dir = some d →
        d <+: dir ∧ (d ++ ["package.json"]) ∈ fs ∧
          ∀ e, e <+: dir → (e ++ ["package.json"]) ∈ fs → e.length ≤ d.length)
    ∧ (∀ (fs : FsTree) (dir : FsPath), pkgUpDir fs dir = none →
        ∀ e, e <+: dir → (e ++ ["package.json"]) ∉ fs)
    ∧ detectMonorepoRoot [["a", "package.json"], ["a", "pnpm-workspace.yaml"]]
        ["a", "pkg", "b"] = some ["a"]
    ∧ detectMonorepoRoot [["a", "package.json"]] ["a", "pkg", "b"] = none := by
  refine ⟨fun fs target d => detectMonorepoRoot_iff fs target d, ?_, ?_, by decide, by decide⟩
  · intro fs dir d h
    have := pkgUpFromRev_some fs dir.reverse d h
    rwa [List.reverse_reverse] at this
  · intro fs dir h
    have := pkgUpFromRev_none fs dir.reverse h
    rwa [List.reverse_reverse] at this

/-! ## Claim C9 -/

/-- Claim C9 (counterexample): with the target being the filesystem root
and a manifest plus `lerna.json` marker at the root, the probe finds the
root itself, so `projectRoot = target` although the probe found a root —
the found root is not a strict ancestor of the target. -/
theorem claimC9_counterexample :
    detectMonorepoRoot [["package.json"], ["lerna.json"]] ([] : FsPath) = some []
    ∧ projectRootOf [["package.json"], ["lerna.json"]] ([] : FsPath) = []
    ∧ ¬ (([] : FsPath) <+: [] ∧ ([] : FsPath) ≠ []) := by
  refine ⟨by decide, by decide, ?_⟩
  simp

/-- Claim C9 (amended): `projectRoot` is always an ancestor-or-self of
`target`; it equals `target` when the probe finds nothing; and when the
probe finds a root and the target is not the filesystem root itself, the
found root is a strict ancestor (proper prefix) of the target. -/
theorem claimC9_projectRootAncestor :
    ∀ (fs : FsTree) (target : FsPath),
      (projectRootOf fs target <+: target)
      ∧ (detectMonorepoRoot fs target = none → projectRootOf fs target = target)
      ∧ (∀ r, detectMonorepoRoot fs target = some r → target ≠ [] →
          r <+: target ∧ r ≠ target) := by
  intro fs target
  have hstep : ∀ r, detectMonorepoRoot fs target = some r → r <+: target.dropLast := by
    intro r hr
    have hp := (detectMonorepoRoot_iff fs target r).mp hr
    have hs := pkgUpFromRev_some fs target.dropLast.reverse r hp.1
    rw [List.reverse_reverse] at hs
    exact hs.1
  have hdp : target.dropLast <+: target := by
    exact List.dropLast_prefix target
  refine ⟨?_, ?_, ?_⟩
  · cases hd : detectMonorepoRoot fs target with
    | none => simp [projectRootOf, hd]
    | some r =>
      simp only [projectRootOf, hd]
      exact (hstep r hd).trans hdp
  · intro hd
    simp [projectRootOf, hd]
  · intro r hd hne
    have hpre : r <+: target.dropLast := hstep r hd
    have hlen : r.length ≤ target.dropLast.length := hpre.length_le
    have hlt : r.length < target.length := by
      rw [List.length_dropLast] at hlen
      have : 0 < target.length := List.length_pos.mpr hne
      omega
    refine ⟨hpre.trans hdp, ?_⟩
    intro heq
    rw [heq] at hlt
    omega

/-! ## Reconciliation steps over the project tree -/

/-- Which filesystem / process primitives fail during a reconciliation
step (`fsExtra.remove`, `fsExtra.copyFile`, spawning `git init`). -/
structure FsFailures where
  removeFails : Bool
  copyFails : Bool
  gitInitFails : Bool
deriving DecidableEq, Repr

/-- The run with no primitive failure. -/
def noFsFailures : FsFailures :=
  { removeFails := false, copyFails := false, gitInitFails := false }

/-- State of the two `.npmrc` locations handled by `moveNpmrc`: the file
at the project directory (`target/.npmrc`) and the file at the workspace
root (`projectRoot/.npmrc`), each `none` or `some content`. -/
structure NpmrcFS where
  localNpmrc : Option String
  rootNpmrc : Option String
deriving DecidableEq, Repr

/-- The `removeHusky` step of the source: if `target/.husky` exists,
remove it.  There is no try/catch in the source, so a failing
`fsExtra.remove` propagates as `Except.error`; a successful run returns
the new existence state of the directory and its (empty) log. -/
def removeHuskyRun (f : FsFailures) (huskyDirExists : Bool) :
    Except Unit (Bool × List String) :=
  if huskyDirExists then
    if f.removeFails then Except.error () else Except.ok (false, [])
  else Except.ok (false, [])

/-- The `moveNpmrc` step of the source: copy `target/.npmrc` to
`projectRoot/.npmrc` only when no root file exists, then always remove the
local copy.  There is no try/catch in the source: a failing copy (also
when the local source file is missing) or a failing remove propagates as
`Except.error`; `fsExtra.remove` of a missing path is a successful no-op. -/
def moveNpmrcRunF (f : FsFailures) (fs : NpmrcFS) :
    Except Unit (NpmrcFS × List String) :=
  match fs.rootNpmrc with
  | none =>
    match fs.localNpmrc with
    | none => Except.error ()
    | some c =>
      if f.copyFails then Except.error ()
      else if f.removeFails then Except.error ()
      else Except.ok ({ localNpmrc := none, rootNpmrc := some c }, [])
  | some r =>
    if f.removeFails && fs.localNpmrc.isSome then Except.error ()
    else Except.ok ({ localNpmrc := none, rootNpmrc := some r }, [])

/-- The `initGit` step of the source: short-circuit when
`projectRoot/.git` exists, otherwise spawn `git init`; the spawn is
wrapped in try/catch, so a failure is converted to the
`Initial the git repo failed` error log and the step returns normally. -/
def initGitRun (f : FsFailures) (gitDirExists : Bool) :
    Except Unit (Bool × List String) :=
  if gitDirExists then Except.ok (true, [])
  else if f.gitInitFails then Except.ok (false, ["Initial the git repo failed"])
  else Except.ok (true, [])

/-! ## Claim C1 -/

/-- Claim C1 (counterexample): a failure of `fsExtra.remove` inside the
hooks-removal step, with the hooks directory present, propagates as an
error instead of being caught and converted to a log line. -/
theorem claimC1_counterexample :
    removeHuskyRun { removeFails := true, copyFails := false, gitInitFails := false }
      true = Except.error () := by
  rfl

/-- Claim C1 (amended): only the git-init step catches its failure — it
never returns an error, and converts a spawn failure into the
`Initial the git repo failed` log line, so the steps after it still run.
Hooks removal and config relocation have no such handler: they propagate
an error exactly when one of the primitives they invoke fails (for
relocation, also when the local config file to copy is missing). -/
theorem claimC1_stepFailureHandling :
    (∀ (f : FsFailures) (g : Bool), ∃ r, initGitRun f g = Except.ok r)
    ∧ (∀ f : FsFailures,
        initGitRun f false =
          if f.gitInitFails then Except.ok (false, ["Initial the git repo failed"])
          else Except.ok (true, []))
    ∧ (∀ (f : FsFailures) (h : Bool),
        removeHuskyRun f h = Except.error () ↔ (h = true ∧ f.removeFails = true))
    ∧ (∀ (f : FsFailures) (fs : NpmrcFS),
        moveNpmrcRunF f fs = Except.error () ↔
          ((fs.rootNpmrc = none ∧
              (fs.localNpmrc = none ∨ f.copyFails = true ∨ f.removeFails = true))
            ∨ (fs.rootNpmrc ≠ none ∧ f.removeFails = true ∧ fs.localNpmrc ≠ none))) := by
  refine ⟨?_, ?_, ?_, ?_⟩
  · intro f g
    cases g <;> cases hf : f.gitInitFails <;> simp [initGitRun, hf]
  · intro f
    cases hf : f.gitInitFails <;> simp [initGitRun, hf]
  · intro f h
    cases h <;> cases hf : f.removeFails <;> simp [removeHuskyRun, hf]
  · intro f fs
    obtain ⟨lcl, root⟩ := fs
    cases root <;> cases lcl <;>
      cases hc : f.copyFails <;> cases hr : f.removeFails <;>
        simp [moveNpmrcRunF, hc, hr]

/-! ## Claim C4 -/

/-- Claim C4 (confirmed): with the rendered local config file present
(content `c`) and the workspace-root file present or absent, running the
relocation step twice succeeds without failure; after the first run the
local file is gone and the root holds exactly the pre-existing file if
there was one, else the copied local content; the second run is the
identity on that state, so it never overwrites the root file created or
found by the first run. -/
theorem claimC4_moveNpmrcIdempotent :
    ∀ (c : String) (root : Option String),
      moveNpmrcRunF noFsFailures { localNpmrc := some c, rootNpmrc := root }
        = Except.ok ({ localNpmrc := none, rootNpmrc := some (root.getD c) }, [])
      ∧ moveNpmrcRunF noFsFailures { localNpmrc := none, rootNpmrc := some (root.getD c) }
        = Except.ok ({ localNpmrc := none, rootNpmrc := some (root.getD c) }, []) := by
  intro c root
  cases root <;> simp [moveNpmrcRunF, noFsFailures]

/-! ## Character facts for the version-string parsing proof -/

/-- A decimal digit is not a JavaScript whitespace character. -/
lemma isDigit_not_ws {c : Char} (h : c.isDigit = true) : isJsWhitespace c = false := by
  by_contra hw
  rw [Bool.not_eq_false] at hw
  simp only [isJsWhitespace, Bool.or_eq_true, decide_eq_true_eq] at hw
  rcases hw with ((((rfl | rfl) | rfl) | rfl) | rfl) | rfl <;> exact absurd h (by decide)

/-- A decimal digit is not the minus sign. -/
lemma isDigit_ne_dash {c : Char} (h : c.isDigit = true) : c ≠ '-' := by
  intro heq
  subst heq
  exact absurd h (by decide)

/-- A decimal digit is not the plus sign. -/
lemma isDigit_ne_plus {c : Char} (h : c.isDigit = true) : c ≠ '+' := by
  intro heq
  subst heq
  exact absurd h (by decide)

/-- A decimal digit is not the dot separator. -/
lemma isDigit_ne_dot {c : Char} (h : c.isDigit = true) : (c != '.') = true := by
  rw [bne_iff_ne]
  intro heq
  subst heq
  exact absurd h (by decide)

/-- Dropping a satisfied-prefix stops at `y` when `p y` fails, pointwise
through an append. -/
lemma dropWhile_append_cons_of_neg {p : Char → Bool} (l m : List Char) (y : Char)
    (hy : p y = false) :
    (l ++ y :: m).dropWhile p = l.dropWhile p ++ y :: m := by
  induction l with
  | nil => simp [List.dropWhile_cons, hy]
  | cons a l ih =>
    by_cases ha : p a
    · simp [List.dropWhile_cons, ha, ih]
    · simp [List.dropWhile_cons, ha]

/-- Taking while `p` holds through `l ++ y :: m` yields exactly `l` when
all of `l` satisfies `p` and `y` does not. -/
lemma takeWhile_append_cons_of_all {p : Char → Bool} (l m : List Char) (y : Char)
    (hl : ∀ c ∈ l, p c = true) (hy : p y = false) :
    (l ++ y :: m).takeWhile p = l := by
  induction l with
  | nil => simp [List.takeWhile_cons, hy]
  | cons a l ih =>
    have ha : p a = true := hl a (by simp)
    simp [List.takeWhile_cons, ha, ih (fun c hc => hl c (by simp [hc]))]

/-- JavaScript `trim` of a string that starts with a digit block followed
by a dot touches only the part after the dot. -/
lemma trimChars_digits_dot (ds rest : List Char) (hne : ds ≠ [])
    (hd : ∀ c ∈ ds, c.isDigit = true) :
    trimChars (ds ++ '.' :: rest) =
      ds ++ '.' :: (rest.reverse.dropWhile isJsWhitespace).reverse := by
  obtain ⟨d, tl, rfl⟩ := List.exists_cons_of_ne_nil hne
  have hdws : isJsWhitespace d = false := isDigit_not_ws (hd d (by simp))
  have hdot : isJsWhitespace '.' = false := by decide
  simp only [trimChars, List.cons_append]
  rw [List.dropWhile_cons_of_neg (by simp [hdws])]
  have h1 : (d :: (tl ++ '.' :: rest)).reverse
      = rest.reverse ++ '.' :: (tl.reverse ++ [d]) := by
    simp
  rw [h1, dropWhile_append_cons_of_neg _ _ _ hdot]
  simp

/-! ## Claim C8 -/

/-- Claim C8 (confirmed): for any stdout of the shape `{n}.{x}{y}...` — a
nonempty leading block of decimal digits followed by a dot and anything —
the `getPnpmMajorVersion` parsing (`parseInt(stdout.trim().split('.')[0], 10)`)
yields exactly the value of the leading digit block. -/
theorem claimC8_majorVersionParse (ds rest : List Char)
    (h1 : ds ≠ []) (h2 : ∀ c ∈ ds, c.isDigit = true) :
    parsePnpmMajor (ds ++ '.' :: rest) = some ((digitsVal ds : Nat) : Int) := by
  simp only [parsePnpmMajor]
  rw [trimChars_digits_dot ds rest h1 h2]
  rw [takeWhile_append_cons_of_all _ _ _ (fun c hc => isDigit_ne_dot (h2 c hc)) (by decide)]
  obtain ⟨d, tl, rfl⟩ := List.exists_cons_of_ne_nil h1
  have hdig : d.isDigit = true := h2 d (by simp)
  simp only [jsParseInt]
  rw [List.dropWhile_cons_of_neg (by simp [isDigit_not_ws hdig])]
  rw [List.head?_cons, List.tail_cons]
  rw [if_neg (fun heq => isDigit_ne_dash hdig (Option.some.inj heq))]
  rw [if_neg (fun heq => isDigit_ne_plus hdig (Option.some.inj heq))]
  rw [if_neg (by simp)]
  simp only [parseDigits]
  rw [List.takeWhile_eq_self_iff.mpr h2]
  simp

/-- Claim C8 (witness): the concrete version string `8.6.0` parses to
major version 8. -/
theorem claimC8_witness :
    parsePnpmMajor (['8'] ++ '.' :: ['6', '.', '0']) = some 8 := by
  rw [claimC8_majorVersionParse ['8'] ['6', '.', '0'] (by decide) (by decide)]
  decide

/-! ## Registry classification (`detectUserRegistry`) -/

/-- JavaScript `s.includes(sub)` on Lean strings. -/
def strIncludes (s sub : String) : Bool :=
  hasSubstr s.data sub.data

/-- The regional-mirror allow-list of the source (`isChinaRegistry`). -/
def chinaRegistryList : List String :=
  ["registry.npm.taobao.org", "registry.npmmirror.com", "r.cnpmjs.org",
    "registry.nlark.com"]

/-- The default-public allow-list of the source (`isNpmRegistry`). -/
def npmRegistryList : List String :=
  ["registry.npmjs.org", "registry.npmjs.com", "registry.yarnpkg.com"]

/-- The `isChinaRegistry` predicate of the source: some allow-list entry
occurs inside the registry URL. -/
def isChinaRegistry (registry : String) : Bool :=
  chinaRegistryList.any (fun i => strIncludes registry i)

/-- The `isNpmRegistry` predicate of the source. -/
def isNpmRegistry (registry : String) : Bool :=
  npmRegistryList.any (fun i => strIncludes registry i)

/-- JavaScript `trim` on a Lean string. -/
def jsTrimString (s : String) : String :=
  String.mk (trimChars s.data)

/-- The `detectUserRegistry` probe: `none` models the catch branch (the
`npm config get registry` spawn failed); otherwise the trimmed stdout is
reported as a custom registry iff it matches neither allow-list. -/
def detectUserRegistry (probeStdout : Option String) : Option String :=
  match probeStdout with
  | none => none
  | some stdout =>
    let registry := jsTrimString stdout
    if !isChinaRegistry registry && !isNpmRegistry registry then some registry
    else none

/-! ## Claim C7 -/

/-- Claim C7 (confirmed): the probe returns the trimmed configured URL as
a custom candidate exactly when the URL contains no entry of the
default-public allow-list and no entry of the regional-mirror allow-list,
and returns `none` on spawn failure; concrete runs on a default-public
URL, a regional-mirror URL and a corporate URL behave accordingly. -/
theorem claimC7_registryClassification :
    detectUserRegistry none = none
    ∧ (∀ s r, detectUserRegistry (some s) = some r ↔
        (r = jsTrimString s ∧ isChinaRegistry (jsTrimString s) = false
          ∧ isNpmRegistry (jsTrimString s) = false))
    ∧ detectUserRegistry (some "https://registry.npmjs.org/") = none
    ∧ detectUserRegistry (some "https://registry.npmmirror.com/") = none
    ∧ detectUserRegistry (some "https://npm.corp.example.com/")
        = some "https://npm.corp.example.com/" := by
  refine ⟨rfl, ?_, by decide, by decide, by decide⟩
  intro s r
  by_cases hc : isChinaRegistry (jsTrimString s) <;>
    by_cases hn : isNpmRegistry (jsTrimString s) <;>
      simp [detectUserRegistry, hc, hn, eq_comm]

/-! ## Orchestrator pipeline (ordering and gating of observable steps) -/

/-- Observable pipeline steps of the orchestrator, in source order:
`unpackTemplate`, `injectInternalTemplateFiles`, `removeHusky`,
`moveNpmrc`, `initGit` / the skip-git notice, the two install commands,
the skip-install notice and the pnpm-8 advisory. -/
inductive PStep
  | unpack
  | renderInternal
  | removeHusky
  | moveNpmrc
  | initGit
  | skipGitLog
  | installNpm
  | installPnpm8
  | skipInstallLog
  | pnpm8Warn
deriving DecidableEq, Repr

/-- Inputs of one orchestrator run: the `--template` and `--default`
flags, the selected npm client, the outcome of `pnpm --version`
(`none` when the spawn fails, otherwise the parsed stdout), the workspace
probe outcome, and the `--git` / `--install` flags. -/
structure RunCfg where
  useExternalTemplate : Bool
  useDefaultData : Bool
  npmClient : ENpmClient
  pnpmProbe : Option (Option Int)
  inMonorepo : Bool
  gitArg : Option Bool
  installArg : Option Bool
deriving DecidableEq, Repr

/-- The three gated reconciliation steps, in source order. -/
def reconciliationSteps (withHusky inMonorepo shouldInitGit : Bool) : List PStep :=
  (if withHusky then [] else [PStep.removeHusky]) ++
  (if inMonorepo then [PStep.moveNpmrc] else []) ++
  (if shouldInitGit then [PStep.initGit] else [PStep.skipGitLog])

/-- The install stage: `!useDefaultData && args.install !== false` gates
the install; pnpm 8 switches to `pnpm up -L`; when skipped, the notice is
logged, plus the pnpm-8 advisory when that version was detected. -/
def installSteps (useDefaultData : Bool) (installArg : Option Bool)
    (isPnpm8 : Bool) : List PStep :=
  if !useDefaultData && installArg != some false then
    if isPnpm8 then [PStep.installPnpm8] else [PStep.installNpm]
  else
    PStep.skipInstallLog :: (if isPnpm8 then [PStep.pnpm8Warn] else [])

/-- Everything the orchestrator runs before the install stage once the
pnpm probe has succeeded (or was skipped): the optional unpack already
performed, the internal render, then reconciliation. -/
def preInstallSteps (ue withHusky im shouldInitGit : Bool) : List PStep :=
  (if ue then [PStep.unpack] else []) ++
  (if ue then [] else [PStep.renderInternal]) ++
  reconciliationSteps withHusky im shouldInitGit

/-- The orchestrator: `unpackTemplate` runs (external-template path)
before the probes; then `getPnpmMajorVersion` is invoked iff the client
is pnpm, and its spawn failure raises `Please install pnpm first`,
aborting with only the pre-probe steps performed; otherwise the render,
reconciliation and install stages run in source order. -/
def runPipeline (cfg : RunCfg) : Except (String × List PStep) (List PStep) :=
  if cfg.npmClient = ENpmClient.pnpm ∧ cfg.pnpmProbe = none then
    Except.error ("Please install pnpm first",
      if cfg.useExternalTemplate then [PStep.unpack] else [])
  else
    Except.ok
      (preInstallSteps cfg.useExternalTemplate
          ((cfg.gitArg != some false) && !cfg.inMonorepo) cfg.inMonorepo
          (cfg.gitArg != some false) ++
        installSteps cfg.useDefaultData cfg.installArg
          ((if cfg.npmClient = ENpmClient.pnpm then cfg.pnpmProbe.getD none
            else none) == some 8))

/-- The install commands occur in the install stage iff defaults are not
used and install is not explicitly disabled. -/
lemma installSteps_install_mem :
    ∀ (ud : Bool) (ia : Option Bool) (p8 : Bool),
      ((PStep.installNpm ∈ installSteps ud ia p8
          ∨ PStep.installPnpm8 ∈ installSteps ud ia p8)
        ↔ (ud = false ∧ ia ≠ some false)) := by
  decide

/-- With defaults in use, the install stage logs the skip notice. -/
lemma installSteps_skip_mem :
    ∀ (ud : Bool) (ia : Option Bool) (p8 : Bool), ud = true →
      PStep.skipInstallLog ∈ installSteps ud ia p8 := by
  decide

/-- No install command occurs before the install stage. -/
lemma preInstallSteps_no_install :
    ∀ (ue wh im sg : Bool),
      PStep.installNpm ∉ preInstallSteps ue wh im sg
      ∧ PStep.installPnpm8 ∉ preInstallSteps ue wh im sg := by
  decide

/-! ## Claim C5 -/

/-- Claim C5 (confirmed): whenever the selected client is pnpm and the
`pnpm --version` spawn fails, the run aborts with the
`Please install pnpm first` error, and the steps performed before the
abort contain no reconciliation step — no hooks removal, no config
relocation, no git init and no dependency install. -/
theorem claimC5_probeFailureAborts :
    ∀ (ue ud im : Bool) (g i : Option Bool),
      runPipeline
          { useExternalTemplate := ue, useDefaultData := ud,
            npmClient := ENpmClient.pnpm, pnpmProbe := none,
            inMonorepo := im, gitArg := g, installArg := i }
        = Except.error ("Please install pnpm first",
            if ue then [PStep.unpack] else [])
      ∧ PStep.removeHusky ∉ (if ue then [PStep.unpack] else ([] : List PStep))
      ∧ PStep.moveNpmrc ∉ (if ue then [PStep.unpack] else ([] : List PStep))
      ∧ PStep.initGit ∉ (if ue then [PStep.unpack] else ([] : List PStep))
      ∧ PStep.installNpm ∉ (if ue then [PStep.unpack] else ([] : List PStep))
      ∧ PStep.installPnpm8 ∉ (if ue then [PStep.unpack] else ([] : List PStep)) := by
  intro ue ud im g i
  refine ⟨rfl, ?_, ?_, ?_, ?_, ?_⟩ <;> cases ue <;> decide

/-! ## Claim C10 -/

/-- Claim C10 (confirmed): in every run that survives the pnpm probe,
when the `--default` flag is set the install is skipped and the skip
notice is emitted regardless of the `--install` flag, and an install
command runs exactly when defaults are not used and install is not
explicitly disabled. -/
theorem claimC10_installGate (cfg : RunCfg)
    (h : ¬(cfg.npmClient = ENpmClient.pnpm ∧ cfg.pnpmProbe = none)) :
    ∃ steps, runPipeline cfg = Except.ok steps
      ∧ (cfg.useDefaultData = true →
          PStep.skipInstallLog ∈ steps ∧ PStep.installNpm ∉ steps
            ∧ PStep.installPnpm8 ∉ steps)
      ∧ ((PStep.installNpm ∈ steps ∨ PStep.installPnpm8 ∈ steps) ↔
          (cfg.useDefaultData = false ∧ cfg.installArg ≠ some false)) := by
  have hrun : runPipeline cfg = Except.ok
      (preInstallSteps cfg.useExternalTemplate
          ((cfg.gitArg != some false) && !cfg.inMonorepo) cfg.inMonorepo
          (cfg.gitArg != some false) ++
        installSteps cfg.useDefaultData cfg.installArg
          ((if cfg.npmClient = ENpmClient.pnpm then cfg.pnpmProbe.getD none
            else none) == some 8)) := by
    simp only [runPipeline]
    rw [if_neg h]
  refine ⟨_, hrun, ?_, ?_⟩
  · intro hud
    have hpre := preInstallSteps_no_install cfg.useExternalTemplate
      ((cfg.gitArg != some false) && !cfg.inMonorepo) cfg.inMonorepo
      (cfg.gitArg != some false)
    refine ⟨List.mem_append_right _
      (installSteps_skip_mem cfg.useDefaultData cfg.installArg _ hud), ?_, ?_⟩
    · intro hmem
      rcases List.mem_append.mp hmem with hin | hin
      · exact hpre.1 hin
      · have hiff := (installSteps_install_mem cfg.useDefaultData cfg.installArg _).mp
          (Or.inl hin)
        rw [hud] at hiff
        simp at hiff
    · intro hmem
      rcases List.mem_append.mp hmem with hin | hin
      · exact hpre.2 hin
      · have hiff := (installSteps_install_mem cfg.useDefaultData cfg.installArg _).mp
          (Or.inr hin)
        rw [hud] at hiff
        simp at hiff
  · have hpre := preInstallSteps_no_install cfg.useExternalTemplate
      ((cfg.gitArg != some false) && !cfg.inMonorepo) cfg.inMonorepo
      (cfg.gitArg != some false)
    constructor
    · intro hor
      rcases hor with hin | hin
      · rcases List.mem_append.mp hin with h1 | h1
        · exact absurd h1 hpre.1
        · exact (installSteps_install_mem cfg.useDefaultData cfg.installArg _).mp
            (Or.inl h1)
      · rcases List.mem_append.mp hin with h1 | h1
        · exact absurd h1 hpre.2
        · exact (installSteps_install_mem cfg.useDefaultData cfg.installArg _).mp
            (Or.inr h1)
    · intro hcond
      rcases (installSteps_install_mem cfg.useDefaultData cfg.installArg
          ((if cfg.npmClient = ENpmClient.pnpm then cfg.pnpmProbe.getD none
            else none) == some 8)).mpr hcond with h1 | h1
      · exact Or.inl (List.mem_append_right _ h1)
      · exact Or.inr (List.mem_append_right _ h1)

/-- Claim C10 (witness): a concrete `--default` run with the npm client
(probe not consulted), exercising the theorem at a closed configuration. -/
theorem claimC10_witness :
    ∃ steps,
      runPipeline
          { useExternalTemplate := false, useDefaultData := true,
            npmClient := ENpmClient.npm, pnpmProbe := none,
            inMonorepo := false, gitArg := none, installArg := none }
        = Except.ok steps
      ∧ ((true : Bool) = true →
          PStep.skipInstallLog ∈ steps ∧ PStep.installNpm ∉ steps
            ∧ PStep.installPnpm8 ∉ steps)
      ∧ ((PStep.installNpm ∈ steps ∨ PStep.installPnpm8 ∈ steps) ↔
          ((true : Bool) = false ∧ (none : Option Bool) ≠ some false)) :=
  claimC10_installGate
    { useExternalTemplate := false, useDefaultData := true,
      npmClient := ENpmClient.npm, pnpmProbe := none,
      inMonorepo := false, gitArg := none, installArg := none }
    (by decide)
